import Mathlib

/-!
Shallow embedding of the cost-tracking / item-caching subsystem of the
`noted` repository (`src/cost_tracker.py`, `src/claude_interface.py`).

Python floats are modelled as exact rationals (ℚ); `round(x, n)` is modelled
as round-half-to-even on the exact rational, matching Python's documented
rounding mode.  File I/O (`open` + `json.load` inside `try/except`) is
modelled by an `Option String` disk content together with an
`Option`-returning decode function; `json.loads` (a stdlib external) is a
parameter of the functions that use it.  Python dicts that are iterated in
insertion order are modelled as association lists.
-/

namespace Noted

/-- Python's `round` to an integer: round half to even. -/
def roundHalfToEven (q : ℚ) : ℤ :=
  let f := ⌊q⌋
  if q - f < 1/2 then f
  else if (1:ℚ)/2 < q - f then f + 1
  else if f % 2 = 0 then f else f + 1

/-- Python's `round(q, ndigits)` on an exact rational. -/
def pyRound (ndigits : ℕ) (q : ℚ) : ℚ :=
  (roundHalfToEven (q * 10 ^ ndigits) : ℚ) / 10 ^ ndigits

/-- `CostTracker.estimate_tokens`: `max(1, len(text) // 4)`. -/
def estimate_tokens (text : String) : ℕ :=
  max 1 (text.length / 4)

/-- The module-level pricing table. -/
structure Pricing where
  input : ℚ
  output : ℚ

/-- `SONNET_4_PRICING = {"input": 3.0, "output": 15.0}`. -/
def SONNET_4_PRICING : Pricing := { input := 3, output := 15 }

/-- `CostTracker.calculate_cost`. -/
def calculate_cost (input_tokens output_tokens : ℕ) : ℚ :=
  let input_cost := ((input_tokens : ℚ) / 1000000) * SONNET_4_PRICING.input
  let output_cost := ((output_tokens : ℚ) / 1000000) * SONNET_4_PRICING.output
  input_cost + output_cost

/-- One entry of the `calls` list (the `call_data` dict of `log_api_call`). -/
structure CallRecord where
  timestamp : String
  note_id : String
  input_tokens : ℕ
  output_tokens : ℕ
  total_tokens : ℕ
  cost : ℚ
  metadata : List (String × String)

/-- The persisted cost-log document. -/
structure CostLog where
  total_calls : ℕ
  total_cost : ℚ
  calls : List CallRecord

/-- The empty log, also the fallback of `load_log` on failure. -/
def emptyLog : CostLog := { total_calls := 0, total_cost := 0, calls := [] }

/-- `CostTracker.load_log`: `try: json.load(open(log_file)) except: empty`.
`disk = none` models an absent or unreadable file, `loads s = none` models a
file whose content `s` is not valid JSON for a log document. -/
def load_log (loads : String → Option CostLog) (disk : Option String) : CostLog :=
  match disk with
  | none => emptyLog
  | some s => (loads s).getD emptyLog

/-- The arguments of one `log_api_call` invocation; `timestamp` stands for
`datetime.now().isoformat()`, threaded explicitly. -/
structure CallInput where
  input_text : String
  output_text : String
  note_id : String
  timestamp : String
  metadata : Option (List (String × String))

/-- The raw (unrounded) cost computed at the top of `log_api_call`. -/
def callCost (inp : CallInput) : ℚ :=
  calculate_cost (estimate_tokens inp.input_text) (estimate_tokens inp.output_text)

/-- The `call_data` dict built by `log_api_call` (cost rounded to 6 places). -/
def mkCallRecord (inp : CallInput) : CallRecord :=
  { timestamp := inp.timestamp
    note_id := inp.note_id
    input_tokens := estimate_tokens inp.input_text
    output_tokens := estimate_tokens inp.output_text
    total_tokens := estimate_tokens inp.input_text + estimate_tokens inp.output_text
    cost := pyRound 6 (callCost inp)
    metadata := inp.metadata.getD [] }

/-- `CostTracker.log_api_call` acting on the loaded log document: appends
`call_data`, bumps the totals by the unrounded cost, keeps only the last 100
calls.  Returns the saved document together with the returned record. -/
def log_api_call (log : CostLog) (inp : CallInput) : CostLog × CallRecord :=
  let call_data := mkCallRecord inp
  let calls := log.calls ++ [call_data]
  ({ total_calls := log.total_calls + 1
     total_cost := log.total_cost + callCost inp
     calls := if calls.length > 100 then calls.drop (calls.length - 100) else calls },
   call_data)

/-- Iterate `log_api_call`, keeping only the persisted document. -/
def runCalls (log : CostLog) (l : List CallInput) : CostLog :=
  l.foldl (fun s inp => (log_api_call s inp).1) log

/-- Python's `xs[-n:]`. -/
def lastN {α : Type} (n : ℕ) (l : List α) : List α :=
  l.drop (l.length - n)

/-- The dict returned by `get_stats`; the empty-log branch returns a dict
without the `daily_estimate` / `monthly_estimate` keys, hence the `Option`. -/
structure Stats where
  total_calls : ℕ
  total_cost : ℚ
  average_cost : ℚ
  recent_calls : List CallRecord
  daily_estimate : Option ℚ
  monthly_estimate : Option ℚ

/-- `CostTracker.get_stats` on the loaded log document. -/
def get_stats (log : CostLog) : Stats :=
  match log.calls with
  | [] =>
      { total_calls := 0
        total_cost := 0
        average_cost := 0
        recent_calls := []
        daily_estimate := none
        monthly_estimate := none }
  | _ =>
      let recent_calls := lastN 10 log.calls
      let avg_cost := log.total_cost / (log.total_calls : ℚ)
      { total_calls := log.total_calls
        total_cost := pyRound 4 log.total_cost
        average_cost := pyRound 4 avg_cost
        recent_calls := recent_calls
        daily_estimate := some (pyRound 2 (avg_cost * 30))
        monthly_estimate := some (pyRound 2 (avg_cost * 900)) }

/-- One cached shopping item (values of the cache dict). -/
structure CachedItem where
  category : Option String
  priority : Option String
  estimated_cost : Option String
  quantity : Option String
deriving DecidableEq

/-- The item cache document: a dict in insertion order. -/
abbrev Cache := List (String × CachedItem)

/-- The pre-seeded cache written by `ensure_cache_file`. -/
def common_items : Cache :=
  [("milk", { category := some "dairy", priority := some "high",
              estimated_cost := some "$4.99", quantity := some "1 gallon" }),
   ("bread", { category := some "bakery", priority := some "high",
               estimated_cost := some "$3.49", quantity := some "1 loaf" }),
   ("eggs", { category := some "dairy", priority := some "high",
              estimated_cost := some "$3.99", quantity := some "1 dozen" })]

/-- `ItemCache.load_cache`: same failure policy as `load_log`, fallback `{}`. -/
def load_cache (loads : String → Option Cache) (disk : Option String) : Cache :=
  match disk with
  | none => []
  | some s => (loads s).getD []

/-- Python's `str.lower()` (per-character lowering). -/
def pyLower (s : String) : String :=
  String.mk (s.data.map Char.toLower)

/-- Does `needle` occur at the head of `hay`? -/
def charsStartWith : List Char → List Char → Bool
  | [], _ => true
  | _ :: _, [] => false
  | a :: as, b :: bs => a == b && charsStartWith as bs

/-- Python's substring test `needle in hay` on the character lists. -/
def charsContain (needle : List Char) : List Char → Bool
  | [] => needle.isEmpty
  | b :: bs => charsStartWith needle (b :: bs) || charsContain needle bs

/-- Python's `a in b` on strings. -/
def pyIn (needle hay : String) : Bool :=
  charsContain needle.data hay.data

/-- The match test of `get_item`:
`cached_item.lower() in item_lower or item_lower in cached_item.lower()`. -/
def itemMatches (item_lower cached_key : String) : Bool :=
  pyIn (pyLower cached_key) item_lower || pyIn item_lower (pyLower cached_key)

/-- `ItemCache.get_item` on the loaded cache. -/
def get_item (cache : Cache) (item_name : String) : Option CachedItem :=
  let item_lower := pyLower item_name
  (cache.find? fun kv => itemMatches item_lower kv.1).map Prod.snd

/-- One item of a shopping-list payload (`item.get(...)` fields). -/
structure SItem where
  item : Option String
  category : Option String
  priority : Option String
  estimated_cost : Option String
  quantity : Option String

/-- The payload handed to `extract_and_cache_items`; `shopping_list = none`
models a dict without the `"shopping_list"` key. -/
structure ShoppingPayload where
  shopping_list : Option (List SItem)

/-- `item.get("item", "").lower()`. -/
def itemKey (it : SItem) : String :=
  pyLower (it.item.getD "")

/-- The cache entry built from one shopping-list item. -/
def mkCachedItem (it : SItem) : CachedItem :=
  { category := it.category
    priority := it.priority
    estimated_cost := it.estimated_cost
    quantity := it.quantity }

/-- Exact dict-key membership (`item_name not in cache` is its negation). -/
def hasKey (cache : Cache) (k : String) : Bool :=
  cache.any fun kv => kv.1 == k

/-- The body of the `for item in shopping_list["shopping_list"]` loop:
`if item_name and item_name not in cache: cache[item_name] = {...}; updated = True`. -/
def absorbStep (acc : Cache × Bool) (it : SItem) : Cache × Bool :=
  let item_name := itemKey it
  if item_name != "" && !(hasKey acc.1 item_name) then
    (acc.1 ++ [(item_name, mkCachedItem it)], true)
  else acc

/-- `ItemCache.extract_and_cache_items` on the loaded cache.  Returns the
final cache together with the `updated` flag; `save_cache` runs iff the flag
is `true`. -/
def extract_and_cache_items (cache : Cache) (payload : ShoppingPayload) :
    Cache × Bool :=
  match payload.shopping_list with
  | none => (cache, false)
  | some items => items.foldl absorbStep (cache, false)

/-- The error dict built by `_parse_response` on failure. -/
structure ParseFailure where
  error : String
  raw_response : String

/-- Index of the first occurrence of `c`, scanning from the front. -/
def findFirstIdx (c : Char) : List Char → Option ℕ
  | [] => none
  | b :: bs => if b == c then some 0 else (findFirstIdx c bs).map (· + 1)

/-- Python's `str.find`: first index, or -1. -/
def pyFind (s : String) (c : Char) : Int :=
  match findFirstIdx c s.data with
  | some i => (i : ℤ)
  | none => -1

/-- Python's `str.rfind`: last index, or -1. -/
def pyRFind (s : String) (c : Char) : Int :=
  match findFirstIdx c s.data.reverse with
  | some i => ((s.data.length - 1 - i : ℕ) : ℤ)
  | none => -1

/-- Python's `s[a:b]` for natural bounds. -/
def pySlice (s : String) (a b : ℕ) : String :=
  String.mk ((s.data.drop a).take (b - a))

/-- `ClaudeProcessor._parse_response`.  `loads` stands for `json.loads`
(stdlib external), returning `none` exactly when it would raise
`json.JSONDecodeError`; the `raise ValueError` and the decode error are both
caught and turned into the error dict. -/
def parse_response {α : Type} (loads : String → Option α)
    (response_text : String) : Except ParseFailure α :=
  if pyFind response_text '{' = -1 ∨ pyRFind response_text '}' + 1 = 0 then
    Except.error { error := "Failed to parse response", raw_response := response_text }
  else
    match loads (pySlice response_text (pyFind response_text '{').toNat
        (pyRFind response_text '}' + 1).toNat) with
    | some v => Except.ok v
    | none =>
        Except.error { error := "Failed to parse response", raw_response := response_text }

lemma lastN_eq_reverse_take {α : Type} (n : ℕ) (l : List α) :
    lastN n l = (l.reverse.take n).reverse := by
  rw [List.take_reverse, List.reverse_reverse, lastN]

lemma take_append_take {α : Type} (n : ℕ) (a b : List α) :
    (a ++ b.take n).take n = (a ++ b).take n := by
  rw [List.take_append_eq_append_take, List.take_append_eq_append_take, List.take_take]
  congr 2
  exact Nat.min_eq_left (Nat.sub_le n a.length)

lemma lastN_append_lastN {α : Type} (n : ℕ) (xs ys : List α) :
    lastN n (lastN n xs ++ ys) = lastN n (xs ++ ys) := by
  rw [lastN_eq_reverse_take n (lastN n xs ++ ys), lastN_eq_reverse_take n (xs ++ ys),
    List.reverse_append, List.reverse_append,
    lastN_eq_reverse_take n xs, List.reverse_reverse, take_append_take]

lemma length_lastN {α : Type} (n : ℕ) (l : List α) :
    (lastN n l).length = min l.length n := by
  rw [lastN, List.length_drop]
  omega

lemma log_api_call_fst_calls (log : CostLog) (inp : CallInput) :
    ((log_api_call log inp).1).calls = lastN 100 (log.calls ++ [mkCallRecord inp]) := by
  dsimp only [log_api_call]
  split
  · rfl
  · rename_i h
    rw [lastN, Nat.sub_eq_zero_of_le (by omega), List.drop_zero]

lemma log_api_call_fst_total_calls (log : CostLog) (inp : CallInput) :
    ((log_api_call log inp).1).total_calls = log.total_calls + 1 := rfl

lemma log_api_call_fst_total_cost (log : CostLog) (inp : CallInput) :
    ((log_api_call log inp).1).total_cost = log.total_cost + callCost inp := rfl

lemma log_api_call_snd (log : CostLog) (inp : CallInput) :
    (log_api_call log inp).2 = mkCallRecord inp := rfl

lemma runCalls_nil (s : CostLog) : runCalls s [] = s := rfl

lemma runCalls_cons (s : CostLog) (x : CallInput) (xs : List CallInput) :
    runCalls s (x :: xs) = runCalls (log_api_call s x).1 xs := rfl

lemma runCalls_total_calls (l : List CallInput) (s : CostLog) :
    (runCalls s l).total_calls = s.total_calls + l.length := by
  induction l generalizing s with
  | nil => simp [runCalls_nil]
  | cons x xs ih =>
      rw [runCalls_cons, ih, log_api_call_fst_total_calls, List.length_cons]
      omega

lemma runCalls_total_cost (l : List CallInput) (s : CostLog) :
    (runCalls s l).total_cost = s.total_cost + (l.map callCost).sum := by
  induction l generalizing s with
  | nil => simp [runCalls_nil]
  | cons x xs ih =>
      rw [runCalls_cons, ih, log_api_call_fst_total_cost, List.map_cons, List.sum_cons,
        add_assoc]

lemma runCalls_calls (l : List CallInput) (s : CostLog) (h : s.calls.length ≤ 100) :
    (runCalls s l).calls = lastN 100 (s.calls ++ l.map mkCallRecord) := by
  induction l generalizing s with
  | nil => rw [runCalls_nil, List.map_nil, List.append_nil, lastN,
      Nat.sub_eq_zero_of_le h, List.drop_zero]
  | cons x xs ih =>
      rw [runCalls_cons, ih]
      · rw [log_api_call_fst_calls, lastN_append_lastN, List.append_assoc,
          List.singleton_append, List.map_cons]
      · rw [log_api_call_fst_calls, length_lastN]
        omega

/-- C1 (part of the proof): the retained record sequence after a run from the
empty log. -/
lemma runCalls_empty_calls (l : List CallInput) :
    (runCalls emptyLog l).calls = (l.map mkCallRecord).drop (l.length - 100) := by
  rw [runCalls_calls l emptyLog (by simp [emptyLog])]
  show lastN 100 ([] ++ l.map mkCallRecord) = _
  rw [List.nil_append, lastN, List.length_map]

/-- C1: `log_api_call`, run N times from the empty log, appends a record with
`total_tokens` the sum of the two token estimates, bumps `total_calls` by one
per call and `total_cost` by each call's cost, and truncates the retained
records to the most recent 100 while leaving the counters untruncated: after
the run, `total_calls = N`, `total_cost` is the sum of all N costs, the
retained sequence is the last `min N 100` records, and after 150 calls the
oldest 50 records are gone. -/
theorem C1_log_api_call_run (l : List CallInput) :
    (runCalls emptyLog l).total_calls = l.length
    ∧ (runCalls emptyLog l).total_cost = (l.map callCost).sum
    ∧ (runCalls emptyLog l).calls = (l.map mkCallRecord).drop (l.length - 100)
    ∧ (runCalls emptyLog l).calls.length = min l.length 100
    ∧ (∀ (s : CostLog) (inp : CallInput),
        (log_api_call s inp).2.total_tokens
            = estimate_tokens inp.input_text + estimate_tokens inp.output_text
        ∧ (log_api_call s inp).1.total_calls = s.total_calls + 1
        ∧ (log_api_call s inp).1.total_cost = s.total_cost + callCost inp
        ∧ (log_api_call s inp).2.cost = pyRound 6 (callCost inp))
    ∧ (l.length = 150 →
        (runCalls emptyLog l).calls = (l.map mkCallRecord).drop 50) := by
  refine ⟨?_, ?_, runCalls_empty_calls l, ?_, ?_, ?_⟩
  · rw [runCalls_total_calls]
    simp [emptyLog]
  · rw [runCalls_total_cost]
    simp [emptyLog]
  · rw [runCalls_empty_calls l, List.length_drop, List.length_map]
    omega
  · exact fun s inp => ⟨rfl, rfl, rfl, rfl⟩
  · intro h150
    rw [runCalls_empty_calls l, h150]

/-- A concrete call input used by the witnesses. -/
def sampleInput : CallInput :=
  { input_text := "abcd", output_text := "efghijkl", note_id := "n1",
    timestamp := "2026-01-01T00:00:00", metadata := none }

/-- Witness for C1 at a concrete 150-call run. -/
theorem C1_witness :
    (runCalls emptyLog (List.replicate 150 sampleInput)).calls
      = ((List.replicate 150 sampleInput).map mkCallRecord).drop 50 :=
  (C1_log_api_call_run (List.replicate 150 sampleInput)).2.2.2.2.2
    (by simp)

lemma findFirstIdx_eq_none_iff (c : Char) :
    ∀ l : List Char, findFirstIdx c l = none ↔ c ∉ l := by
  intro l
  induction l with
  | nil => simp [findFirstIdx]
  | cons b bs ih =>
      by_cases h : b = c
      · simp [findFirstIdx, h]
      · show (if (b == c) = true then some 0
            else Option.map (· + 1) (findFirstIdx c bs)) = none ↔ c ∉ b :: bs
        rw [if_neg (by simpa using h), Option.map_eq_none', ih, List.mem_cons]
        constructor
        · intro hn hor
          rcases hor with hc | hc
          · exact h hc.symm
          · exact hn hc
        · intro hn hc
          exact hn (Or.inr hc)

lemma findFirstIdx_eq_some_of (c : Char) :
    ∀ (l : List Char) (i : ℕ), l[i]? = some c → (∀ j < i, l[j]? ≠ some c) →
      findFirstIdx c l = some i := by
  intro l
  induction l with
  | nil =>
      intro i h _
      rw [List.getElem?_eq_none (by simp)] at h
      cases h
  | cons b bs ih =>
      intro i h hmin
      cases i with
      | zero =>
          rw [List.getElem?_cons_zero, Option.some.injEq] at h
          simp [findFirstIdx, h]
      | succ i0 =>
          have hb : ¬b = c := by
            intro hbc
            exact hmin 0 (Nat.succ_pos i0) (by rw [List.getElem?_cons_zero, hbc])
          rw [List.getElem?_cons_succ] at h
          have hrec : findFirstIdx c bs = some i0 :=
            ih i0 h fun j hj => by
              have := hmin (j + 1) (by omega)
              rwa [List.getElem?_cons_succ] at this
          simp [findFirstIdx, if_neg (by simpa using hb), hrec]

lemma pyFind_eq_of (s : String) (c : Char) (i : ℕ)
    (h : s.data[i]? = some c) (hmin : ∀ j < i, s.data[j]? ≠ some c) :
    pyFind s c = (i : ℤ) := by
  rw [pyFind, findFirstIdx_eq_some_of c s.data i h hmin]

lemma pyRFind_eq_of (s : String) (c : Char) (j : ℕ)
    (h : s.data[j]? = some c) (hmax : ∀ k, j < k → s.data[k]? ≠ some c) :
    pyRFind s c = (j : ℤ) := by
  have hj : j < s.data.length := by
    rcases List.getElem?_eq_some.mp h with ⟨hlt, _⟩
    exact hlt
  have hrev : s.data.reverse[s.data.length - 1 - j]? = some c := by
    rw [List.getElem?_reverse (by omega)]
    have : s.data.length - 1 - (s.data.length - 1 - j) = j := by omega
    rw [this, h]
  have hrevmin : ∀ j2 < s.data.length - 1 - j, s.data.reverse[j2]? ≠ some c := by
    intro j2 hj2
    rw [List.getElem?_reverse (by omega)]
    exact hmax (s.data.length - 1 - j2) (by omega)
  rw [pyRFind, findFirstIdx_eq_some_of c s.data.reverse (s.data.length - 1 - j) hrev hrevmin]
  show ((s.data.length - 1 - (s.data.length - 1 - j) : ℕ) : ℤ) = (j : ℤ)
  omega

/-- C4: `parse_response` slices from the first `\x7b` to the last `\x7d`
inclusive and decodes that slice; when either brace is missing or the slice
does not decode, it returns the error dict carrying the original raw text;
being a total function, it never raises to the caller. -/
theorem C4_parse_response_spec {α : Type} (loads : String → Option α)
    (text : String) :
    (('{' ∉ text.data ∨ '}' ∉ text.data) →
      parse_response loads text
        = Except.error { error := "Failed to parse response", raw_response := text })
    ∧ (∀ i j : ℕ,
        text.data[i]? = some '{' → (∀ k < i, text.data[k]? ≠ some '{') →
        text.data[j]? = some '}' → (∀ k, j < k → text.data[k]? ≠ some '}') →
        parse_response loads text
          = match loads (pySlice text i (j + 1)) with
            | some v => Except.ok v
            | none => Except.error { error := "Failed to parse response",
                                     raw_response := text })
    ∧ (∀ e : ParseFailure, parse_response loads text = Except.error e →
        e.raw_response = text) := by
  refine ⟨?_, ?_, ?_⟩
  · intro hmiss
    have hcond : pyFind text '{' = -1 ∨ pyRFind text '}' + 1 = 0 := by
      rcases hmiss with hm | hm
      · exact Or.inl (by rw [pyFind, (findFirstIdx_eq_none_iff '{' text.data).mpr hm])
      · refine Or.inr ?_
        rw [pyRFind, (findFirstIdx_eq_none_iff '}' text.data.reverse).mpr
          (fun hmem => hm (List.mem_reverse.mp hmem))]
        rfl
    unfold parse_response
    rw [if_pos hcond]
  · intro i j hi himin hj hjmax
    have hfind : pyFind text '{' = (i : ℤ) := pyFind_eq_of text '{' i hi himin
    have hrfind : pyRFind text '}' = (j : ℤ) := pyRFind_eq_of text '}' j hj hjmax
    have h1 : ((i : ℤ)).toNat = i := Int.toNat_ofNat i
    have h2 : ((j : ℤ) + 1).toNat = j + 1 := by omega
    unfold parse_response
    rw [hfind, hrfind, if_neg (by omega), h1, h2]
  · intro e h
    unfold parse_response at h
    split at h
    · injection h with h2
      rw [← h2]
    · split at h
      · exact Except.noConfusion h
      · injection h with h2
        rw [← h2]

/-- Witness for C4 at a concrete braceless text and a concrete decoder. -/
theorem C4_witness :
    parse_response (fun _ => (none : Option Unit)) "no json here"
      = Except.error { error := "Failed to parse response",
                       raw_response := "no json here" } :=
  (C4_parse_response_spec (fun _ => none) "no json here").1 (Or.inl (by decide))

lemma find?_first {α : Type} (p : α → Bool) (a : α) (post : List α)
    (ha : p a = true) :
    ∀ pre : List α, (∀ x ∈ pre, p x = false) →
      List.find? p (pre ++ a :: post) = some a := by
  intro pre
  induction pre with
  | nil =>
      intro _
      exact List.find?_cons_of_pos post ha
  | cons b bs ih =>
      intro hpre
      have hb : p b = false := hpre b (List.mem_cons_self b bs)
      rw [List.cons_append, List.find?_cons_of_neg _ (by rw [hb]; exact Bool.false_ne_true)]
      exact ih fun x hx => hpre x (List.mem_cons_of_mem b hx)

/-- The "milk" entry of the pre-seeded cache. -/
def milkItem : CachedItem :=
  { category := some "dairy", priority := some "high",
    estimated_cost := some "$4.99", quantity := some "1 gallon" }

/-- C3: `get_item` lower-cases the query, scans the cached keys in insertion
order and returns the data of the first entry whose (lowered) key is a
substring of the query or contains the query, `none` when no key matches
either way; `get_item "organic milk"` on the seeded cache returns the milk
entry, `get_item "xyz"` returns `none`. -/
theorem C3_get_item_spec (cache : Cache) (item_name : String) :
    (get_item cache item_name = none ↔
      ∀ kv ∈ cache, itemMatches (pyLower item_name) kv.1 = false)
    ∧ (∀ (pre : Cache) (kv : String × CachedItem) (post : Cache),
        cache = pre ++ kv :: post →
        (∀ kv2 ∈ pre, itemMatches (pyLower item_name) kv2.1 = false) →
        itemMatches (pyLower item_name) kv.1 = true →
        get_item cache item_name = some kv.2)
    ∧ get_item common_items "organic milk" = some milkItem
    ∧ get_item common_items "xyz" = none := by
  refine ⟨?_, ?_, by decide, by decide⟩
  · show (List.find? (fun kv => itemMatches (pyLower item_name) kv.1) cache).map
        Prod.snd = none ↔ _
    rw [Option.map_eq_none', List.find?_eq_none]
    constructor
    · intro h kv hkv
      have := h kv hkv
      rwa [Bool.not_eq_true] at this
    · intro h kv hkv
      rw [Bool.not_eq_true]
      exact h kv hkv
  · intro pre kv post hc hpre hkv
    subst hc
    show (List.find? (fun kv => itemMatches (pyLower item_name) kv.1)
        (pre ++ kv :: post)).map Prod.snd = some kv.2
    rw [find?_first _ kv post hkv pre hpre]
    rfl

/-- Witness for C3: the seeded cache decomposed around its first matching
entry for the query `"organic milk"`. -/
theorem C3_witness : get_item common_items "organic milk" = some milkItem :=
  (C3_get_item_spec common_items "organic milk").2.1 [] ("milk", milkItem)
    [("bread", { category := some "bakery", priority := some "high",
                 estimated_cost := some "$3.49", quantity := some "1 loaf" }),
     ("eggs", { category := some "dairy", priority := some "high",
                estimated_cost := some "$3.99", quantity := some "1 dozen" })]
    rfl (by simp) (by decide)

/-- C2 counterexample: on the empty log the dict returned by `get_stats` has
no `daily_estimate` / `monthly_estimate` keys at all, while the claim says
every log state gets `daily_estimate = average_cost * 30` (here `some 0`). -/
theorem C2_counterexample :
    (get_stats emptyLog).daily_estimate = none
    ∧ (get_stats emptyLog).monthly_estimate = none :=
  ⟨rfl, rfl⟩

/-- C2 (amended): on a log with a non-empty record sequence, `get_stats`
returns `total_calls`, `total_cost` rounded to 4 decimals, `average_cost`
equal to `total_cost / total_calls` rounded to 4 decimals, the most recent 10
records, `daily_estimate = round(avg * 30, 2)` and
`monthly_estimate = round(avg * 900, 2)` (both computed from the unrounded
average); on a log with an empty record sequence it returns all-zero stats
with no estimate fields. -/
theorem C2_get_stats_amended (log : CostLog) :
    (log.calls = [] →
      get_stats log = { total_calls := 0, total_cost := 0, average_cost := 0,
                        recent_calls := [], daily_estimate := none,
                        monthly_estimate := none })
    ∧ (log.calls ≠ [] →
        (get_stats log).total_calls = log.total_calls
        ∧ (get_stats log).total_cost = pyRound 4 log.total_cost
        ∧ (get_stats log).average_cost
            = pyRound 4 (log.total_cost / (log.total_calls : ℚ))
        ∧ (get_stats log).recent_calls = lastN 10 log.calls
        ∧ (get_stats log).recent_calls.length = min log.calls.length 10
        ∧ (get_stats log).daily_estimate
            = some (pyRound 2 (log.total_cost / (log.total_calls : ℚ) * 30))
        ∧ (get_stats log).monthly_estimate
            = some (pyRound 2 (log.total_cost / (log.total_calls : ℚ) * 900))) := by
  obtain ⟨tc, cost, calls⟩ := log
  cases calls with
  | nil => exact ⟨fun _ => rfl, fun h => absurd rfl h⟩
  | cons c cs =>
      refine ⟨fun h => absurd h (List.cons_ne_nil c cs), fun _ =>
        ⟨rfl, rfl, rfl, rfl, ?_, rfl, rfl⟩⟩
      exact length_lastN 10 (c :: cs)

/-- A concrete non-empty log used by the C2 witness. -/
def sampleLog : CostLog :=
  { total_calls := 2, total_cost := 3 / 100,
    calls := [mkCallRecord sampleInput, mkCallRecord sampleInput] }

/-- Witness for C2 (amended) at a concrete non-empty log. -/
theorem C2_witness :
    (get_stats sampleLog).total_cost = pyRound 4 sampleLog.total_cost
    ∧ (get_stats sampleLog).daily_estimate
        = some (pyRound 2 (sampleLog.total_cost / (sampleLog.total_calls : ℚ) * 30)) := by
  have h := (C2_get_stats_amended sampleLog).2 (by simp [sampleLog])
  exact ⟨h.2.1, h.2.2.2.2.2.1⟩

/-- C5: an absent/unreadable persisted document (`disk = none`) or a corrupt
one (`loads s = none`) makes `load_log` return the empty log state
`{total_calls := 0, total_cost := 0, calls := []}` and `load_cache` return
the empty mapping; both are total functions, so no exception reaches the
caller. -/
theorem C5_load_degrades_to_empty :
    (∀ loads : String → Option CostLog, load_log loads none = emptyLog)
    ∧ (∀ (loads : String → Option CostLog) (s : String),
        loads s = none → load_log loads (some s) = emptyLog)
    ∧ (∀ loads : String → Option Cache, load_cache loads none = [])
    ∧ (∀ (loads : String → Option Cache) (s : String),
        loads s = none → load_cache loads (some s) = []) := by
  refine ⟨fun _ => rfl, fun loads s h => ?_, fun _ => rfl, fun loads s h => ?_⟩
  · simp [load_log, h]
  · simp [load_cache, h]

/-- Witness for C5 with a concrete corrupt document and a concrete decoder. -/
theorem C5_witness :
    load_log (fun _ => none) (some "corrupt") = emptyLog
    ∧ load_cache (fun _ => none) (some "corrupt") = [] :=
  ⟨C5_load_degrades_to_empty.2.1 (fun _ => none) "corrupt" rfl,
   C5_load_degrades_to_empty.2.2.2 (fun _ => none) "corrupt" rfl⟩

/-- C9: every `log_api_call` stores `round(cost, 6)` in the record's `cost`
field but adds the unrounded cost to `total_cost`; hence after any run from
the empty log, `total_cost` is the sum of the unrounded costs. -/
theorem C9_round_asymmetry :
    (∀ (log : CostLog) (inp : CallInput),
        (log_api_call log inp).2.cost = pyRound 6 (callCost inp)
        ∧ (log_api_call log inp).1.total_cost = log.total_cost + callCost inp)
    ∧ (∀ l : List CallInput,
        (runCalls emptyLog l).total_cost = (l.map callCost).sum) := by
  refine ⟨fun log inp => ⟨rfl, rfl⟩, fun l => ?_⟩
  rw [runCalls_total_cost]
  simp [emptyLog]

lemma absorbStep_cases (acc : Cache × Bool) (it : SItem) :
    absorbStep acc it = acc
    ∨ (absorbStep acc it = (acc.1 ++ [(itemKey it, mkCachedItem it)], true)
        ∧ hasKey acc.1 (itemKey it) = false ∧ itemKey it ≠ "") := by
  unfold absorbStep
  by_cases h : (itemKey it != "" && !hasKey acc.1 (itemKey it)) = true
  · rw [Bool.and_eq_true, bne_iff_ne, Bool.not_eq_true'] at h
    right
    exact ⟨by rw [if_pos (by simp [h.1, h.2])], h.2, h.1⟩
  · left
    rw [if_neg h]

lemma hasKey_append_key (c : Cache) (k : String) (v : CachedItem) :
    hasKey (c ++ [(k, v)]) k = true := by
  simp [hasKey, List.any_append]

lemma hasKey_append_mono (c : Cache) (k : String) (v : CachedItem) (k2 : String)
    (h : hasKey c k2 = true) : hasKey (c ++ [(k, v)]) k2 = true := by
  rw [hasKey, List.any_append]
  rw [hasKey] at h
  rw [h, Bool.true_or]

lemma absorbStep_hasKey (acc : Cache × Bool) (it : SItem) (hne : itemKey it ≠ "") :
    hasKey (absorbStep acc it).1 (itemKey it) = true := by
  unfold absorbStep
  by_cases hk : hasKey acc.1 (itemKey it) = true
  · rw [if_neg (by simp [hk])]
    exact hk
  · have hk' : hasKey acc.1 (itemKey it) = false := by
      revert hk
      cases hasKey acc.1 (itemKey it) <;> simp
    rw [if_pos (by simp [hk', bne_iff_ne, hne])]
    exact hasKey_append_key acc.1 (itemKey it) (mkCachedItem it)

lemma foldl_hasKey_mono (items : List SItem) :
    ∀ (acc : Cache × Bool) (k : String), hasKey acc.1 k = true →
      hasKey (items.foldl absorbStep acc).1 k = true := by
  induction items with
  | nil => intro acc k h; exact h
  | cons x xs ih =>
      intro acc k h
      rw [List.foldl_cons]
      apply ih
      rcases absorbStep_cases acc x with hc | ⟨hc, _, _⟩
      · rw [hc]; exact h
      · rw [hc]; exact hasKey_append_mono _ _ _ _ h

lemma foldl_covers (items : List SItem) :
    ∀ (acc : Cache × Bool) (it : SItem), it ∈ items → itemKey it ≠ "" →
      hasKey (items.foldl absorbStep acc).1 (itemKey it) = true := by
  induction items with
  | nil => intro acc it h; cases h
  | cons x xs ih =>
      intro acc it hmem hne
      rw [List.foldl_cons]
      rcases List.mem_cons.mp hmem with rfl | hmem2
      · exact foldl_hasKey_mono xs _ _ (absorbStep_hasKey acc it hne)
      · exact ih (absorbStep acc x) it hmem2 hne

lemma foldl_stable (items : List SItem) :
    ∀ acc : Cache × Bool,
      (∀ it ∈ items, itemKey it = "" ∨ hasKey acc.1 (itemKey it) = true) →
      items.foldl absorbStep acc = acc := by
  induction items with
  | nil => intro acc _; rfl
  | cons x xs ih =>
      intro acc h
      have hstep : absorbStep acc x = acc := by
        unfold absorbStep
        rcases h x (List.mem_cons_self x xs) with he | hk
        · rw [if_neg (by simp [he])]
        · rw [if_neg (by simp [hk])]
      rw [List.foldl_cons, hstep]
      exact ih acc fun it hit => h it (List.mem_cons_of_mem x hit)

lemma foldl_flag_mono (items : List SItem) :
    ∀ acc : Cache × Bool, acc.2 = true → (items.foldl absorbStep acc).2 = true := by
  induction items with
  | nil => intro acc h; exact h
  | cons x xs ih =>
      intro acc h
      rw [List.foldl_cons]
      apply ih
      rcases absorbStep_cases acc x with hc | ⟨hc, _, _⟩
      · rw [hc]; exact h
      · rw [hc]

lemma foldl_no_flag (items : List SItem) :
    ∀ acc : Cache × Bool, (items.foldl absorbStep acc).2 = false →
      items.foldl absorbStep acc = acc := by
  induction items with
  | nil => intro acc _; rfl
  | cons x xs ih =>
      intro acc h
      rw [List.foldl_cons] at h ⊢
      rcases absorbStep_cases acc x with hc | ⟨hc, _, _⟩
      · rw [hc] at h ⊢
        exact ih acc h
      · exfalso
        rw [hc] at h
        have hmono := foldl_flag_mono xs (acc.1 ++ [(itemKey x, mkCachedItem x)], true) rfl
        rw [h] at hmono
        exact Bool.false_ne_true hmono

lemma foldl_len_mono (items : List SItem) :
    ∀ acc : Cache × Bool, acc.1.length ≤ (items.foldl absorbStep acc).1.length := by
  induction items with
  | nil => intro acc; exact le_refl _
  | cons x xs ih =>
      intro acc
      rw [List.foldl_cons]
      refine le_trans ?_ (ih (absorbStep acc x))
      rcases absorbStep_cases acc x with hc | ⟨hc, _, _⟩
      · rw [hc]
      · rw [hc]
        simp

lemma foldl_flag_growth (items : List SItem) :
    ∀ acc : Cache × Bool, (items.foldl absorbStep acc).2 = true →
      acc.2 = true ∨ acc.1.length < (items.foldl absorbStep acc).1.length := by
  induction items with
  | nil => intro acc h; exact Or.inl h
  | cons x xs ih =>
      intro acc h
      rw [List.foldl_cons] at h ⊢
      rcases absorbStep_cases acc x with hc | ⟨hc, _, _⟩
      · rw [hc] at h ⊢
        exact ih acc h
      · right
        rw [hc]
        have hle : (acc.1 ++ [(itemKey x, mkCachedItem x)]).length
            ≤ (xs.foldl absorbStep (acc.1 ++ [(itemKey x, mkCachedItem x)], true)).1.length :=
          foldl_len_mono xs (acc.1 ++ [(itemKey x, mkCachedItem x)], true)
        have hlt : acc.1.length < (acc.1 ++ [(itemKey x, mkCachedItem x)]).length := by
          simp
        omega

/-- C6: `extract_and_cache_items` ends with every non-empty normalized item
name of the payload present as a cache key, leaves the cache unchanged when
it does not persist, strictly grows the cache when it does persist, and is
idempotent: a second call with the same payload inserts nothing and does not
persist. -/
theorem C6_extract_and_cache_idempotent (cache : Cache) (p : ShoppingPayload) :
    (∀ items, p.shopping_list = some items →
        ∀ it ∈ items, itemKey it ≠ "" →
          hasKey (extract_and_cache_items cache p).1 (itemKey it) = true)
    ∧ ((extract_and_cache_items cache p).2 = false →
        (extract_and_cache_items cache p).1 = cache)
    ∧ ((extract_and_cache_items cache p).2 = true →
        cache.length < (extract_and_cache_items cache p).1.length)
    ∧ (∀ (acc : Cache × Bool) (it : SItem), itemKey it ≠ "" →
        hasKey acc.1 (itemKey it) = false →
        absorbStep acc it = (acc.1 ++ [(itemKey it, mkCachedItem it)], true))
    ∧ extract_and_cache_items (extract_and_cache_items cache p).1 p
        = ((extract_and_cache_items cache p).1, false) := by
  have hins : ∀ (acc : Cache × Bool) (it : SItem), itemKey it ≠ "" →
      hasKey acc.1 (itemKey it) = false →
      absorbStep acc it = (acc.1 ++ [(itemKey it, mkCachedItem it)], true) := by
    intro acc it hne hk
    unfold absorbStep
    rw [if_pos (by simp [hk, bne_iff_ne, hne])]
  rcases hp : p.shopping_list with _ | items
  · obtain ⟨sl⟩ := p
    cases hp
    exact ⟨fun items h => Option.noConfusion h, fun _ => rfl, fun h => Bool.noConfusion h,
      hins, rfl⟩
  · obtain ⟨sl⟩ := p
    cases hp
    refine ⟨?_, ?_, ?_, hins, ?_⟩
    · intro items2 h2 it hmem hne
      injection h2 with h3
      subst h3
      exact foldl_covers items (cache, false) it hmem hne
    · intro h
      have hst := foldl_no_flag items (cache, false) h
      show (items.foldl absorbStep (cache, false)).1 = cache
      rw [hst]
    · intro h
      rcases foldl_flag_growth items (cache, false) h with hfl | hlt
      · exact Bool.noConfusion hfl
      · exact hlt
    · show items.foldl absorbStep ((items.foldl absorbStep (cache, false)).1, false)
          = ((items.foldl absorbStep (cache, false)).1, false)
      apply foldl_stable
      intro it hit
      by_cases hne : itemKey it = ""
      · exact Or.inl hne
      · exact Or.inr (foldl_covers items (cache, false) it hit hne)

/-- A concrete shopping-list item used by the C6 and C10 witnesses. -/
def appleSItem : SItem :=
  { item := some "Apples", category := some "produce", priority := some "low",
    estimated_cost := some "$2.99", quantity := some "6" }

/-- A concrete payload used by the C6 witness. -/
def samplePayload : ShoppingPayload := { shopping_list := some [appleSItem] }

/-- Witness for C6 on the seeded cache and a concrete one-item payload. -/
theorem C6_witness :
    hasKey (extract_and_cache_items common_items samplePayload).1 (itemKey appleSItem)
        = true
    ∧ extract_and_cache_items
          (extract_and_cache_items common_items samplePayload).1 samplePayload
        = ((extract_and_cache_items common_items samplePayload).1, false) :=
  ⟨(C6_extract_and_cache_idempotent common_items samplePayload).1 [appleSItem] rfl
      appleSItem (List.mem_cons_self appleSItem []) (by decide),
   (C6_extract_and_cache_idempotent common_items samplePayload).2.2.2.2⟩

/-- C10: a payload without the `"shopping_list"` key, and a payload all of
whose items have a missing/empty name or a name already present as a cache
key, leave the cache unchanged and do not persist. -/
theorem C10_extract_no_change (cache : Cache) :
    extract_and_cache_items cache { shopping_list := none } = (cache, false)
    ∧ (∀ items : List SItem,
        (∀ it ∈ items, itemKey it = "" ∨ hasKey cache (itemKey it) = true) →
        extract_and_cache_items cache { shopping_list := some items }
          = (cache, false)) := by
  refine ⟨rfl, fun items h => ?_⟩
  show items.foldl absorbStep (cache, false) = (cache, false)
  exact foldl_stable items (cache, false) h

/-- Witness for C10: one item with no name, one with an empty name, one whose
name is already a seeded key; nothing changes and nothing is persisted. -/
theorem C10_witness :
    extract_and_cache_items common_items
        { shopping_list := some
            [{ item := none, category := none, priority := none,
               estimated_cost := none, quantity := none },
             { item := some "", category := none, priority := none,
               estimated_cost := none, quantity := none },
             { item := some "Milk", category := some "dairy",
               priority := some "high", estimated_cost := some "$4.99",
               quantity := some "1 gallon" }] }
      = (common_items, false) :=
  (C10_extract_no_change common_items).2 _ (by decide)

/-- C7: for every string `s`, `estimate_tokens s` equals `max 1 (len s / 4)`
with floor division, it never errors (it is a total function), and on the
empty string it returns 1. -/
theorem C7_estimate_tokens_spec :
    (∀ s : String, estimate_tokens s = max 1 (s.length / 4))
    ∧ estimate_tokens "" = 1
    ∧ (∀ s : String, 1 ≤ estimate_tokens s) := by
  refine ⟨fun s => rfl, rfl, fun s => le_max_left 1 _⟩

/-- C8: with the default pricing tier `{input := 3, output := 15}` dollars per
million tokens, `calculate_cost` returns exactly
`(input/1e6)*3 + (output/1e6)*15`, with no rounding; it is non-negative, and
`calculate_cost 1000 2000 = 0.003 + 0.03 = 0.033`. -/
theorem C8_calculate_cost_spec :
    (∀ i o : ℕ, calculate_cost i o = ((i : ℚ) / 1000000) * 3 + ((o : ℚ) / 1000000) * 15)
    ∧ (∀ i o : ℕ, 0 ≤ calculate_cost i o)
    ∧ calculate_cost 1000 2000 = 33 / 1000 := by
  refine ⟨fun i o => rfl, fun i o => ?_, ?_⟩
  · have hi : (0:ℚ) ≤ ((i : ℚ) / 1000000) * 3 := by positivity
    have ho : (0:ℚ) ≤ ((o : ℚ) / 1000000) * 15 := by positivity
    simpa [calculate_cost, SONNET_4_PRICING] using add_nonneg hi ho
  · show ((1000 : ℚ) / 1000000) * 3 + ((2000 : ℚ) / 1000000) * 15 = 33 / 1000
    norm_num

end Noted
